import Mathlib

/-!
Verification of the cc-discord-bot event pipeline.

Each definition below is a shallow embedding of a function of the
repository; the file reference is given in the doc comment.  Text (which
the chunker cuts at UTF-16 positions) is modelled as `List Nat`, one
element per UTF-16 code unit; identifiers and other opaque strings are
modelled as `String`.  JavaScript numbers that only ever hold integers
are modelled as `Int` (or `Nat` where the source guarantees
non-negativity).
-/

/-! ## Backoff helpers (claim C8) -/

/-- From src/scripts/src/core/event-bus.ts, `SqliteEventBus.calculateBackoffMs`:
`if (attempt <= 1) return 1000; const capped = Math.min(attempt, 10);
return Math.min(1000 * 2 ** (capped - 1), 60000);` -/
def calculateBackoffMs (attempt : Nat) : Nat :=
  if attempt ≤ 1 then 1000
  else min (1000 * 2 ^ (min attempt 10 - 1)) 60000

/-- From src/unnamed/part_006: `INITIAL_RECONNECT_DELAY_MS = 1000`. -/
def INITIAL_RECONNECT_DELAY_MS : Nat := 1000

/-- From src/unnamed/part_006: `MAX_RECONNECT_DELAY_MS = 60_000`. -/
def MAX_RECONNECT_DELAY_MS : Nat := 60000

/-- From src/unnamed/part_006, `calculateReconnectDelayMs`:
`if (attempt <= 1) return INITIAL_RECONNECT_DELAY_MS;
return Math.min(INITIAL_RECONNECT_DELAY_MS * 2 ** (attempt - 1), MAX_RECONNECT_DELAY_MS);` -/
def calculateReconnectDelayMs (attempt : Nat) : Nat :=
  if attempt ≤ 1 then INITIAL_RECONNECT_DELAY_MS
  else min (INITIAL_RECONNECT_DELAY_MS * 2 ^ (attempt - 1)) MAX_RECONNECT_DELAY_MS

/-- Claim C8: for every attempt n ≥ 1 the event store's backoff helper equals
`min (1000 * 2^(n-1)) 60000` (hence 1000 for n = 1, 2000 for n = 2, doubling and
capped at 60000), and the connection supervisor's reconnect delay follows the
same law, so both functions agree on every n ≥ 1. -/
theorem backoff_reconnect_spec (n : Nat) (h : 1 ≤ n) :
    calculateBackoffMs n = min (1000 * 2 ^ (n - 1)) 60000 ∧
    calculateReconnectDelayMs n = calculateBackoffMs n := by
  rcases le_or_lt n 10 with hle | hgt
  · interval_cases n <;> simp [calculateBackoffMs, calculateReconnectDelayMs,
      INITIAL_RECONNECT_DELAY_MS, MAX_RECONNECT_DELAY_MS]
  · have h2 : ¬ n ≤ 1 := by omega
    have hcap : min n 10 = 10 := by omega
    have hpow : 2 ^ 10 ≤ 2 ^ (n - 1) :=
      Nat.pow_le_pow_right (by norm_num) (by omega)
    have hbig : 60000 ≤ 1000 * 2 ^ (n - 1) := by
      have : (1024 : Nat) ≤ 2 ^ (n - 1) := by simpa using hpow
      nlinarith
    constructor
    · simp only [calculateBackoffMs, if_neg h2, hcap]
      rw [Nat.min_eq_right hbig]
      norm_num
    · simp only [calculateBackoffMs, calculateReconnectDelayMs,
        INITIAL_RECONNECT_DELAY_MS, MAX_RECONNECT_DELAY_MS, if_neg h2, hcap]
      rw [Nat.min_eq_right hbig]
      norm_num

/-- Witness for claim C8 at the concrete attempt 2. -/
theorem backoff_reconnect_spec_witness :
    calculateBackoffMs 2 = min (1000 * 2 ^ (2 - 1)) 60000 ∧
    calculateReconnectDelayMs 2 = calculateBackoffMs 2 :=
  backoff_reconnect_spec 2 (by decide)

/-! ## Empty-response retry wrapper (claim C5)

From src/scripts/src/core/claude-retry.ts.  The runner is modelled as a
function from the attempt number (1-based) to the `response` string it
returns on that attempt; the wrapper's observable behaviour is the final
result, the number of attempts used, and the list of sleep durations
requested between attempts. -/

/-- The WhiteSpace and LineTerminator code points recognised by JavaScript's
`String.prototype.trim` (ECMA-262 TrimString). -/
def isJsWsCode (c : Nat) : Bool :=
  [9, 10, 11, 12, 13, 32, 0xA0, 0x1680, 0x2000, 0x2001, 0x2002, 0x2003, 0x2004,
    0x2005, 0x2006, 0x2007, 0x2008, 0x2009, 0x200A, 0x2028, 0x2029, 0x202F,
    0x205F, 0x3000, 0xFEFF].contains c

/-- JavaScript `s.trim()` on a Lean `String`: drop the JS whitespace set from
both ends. -/
def jsTrim (s : String) : String :=
  String.mk
    (((s.data.dropWhile fun c => isJsWsCode c.toNat).reverse.dropWhile
        fun c => isJsWsCode c.toNat).reverse)

/-- From src/scripts/src/core/claude-retry.ts: `EMPTY_RESPONSE_MAX_RETRIES = 3`. -/
def EMPTY_RESPONSE_MAX_RETRIES : Nat := 3

/-- From src/scripts/src/core/claude-retry.ts: `EMPTY_RESPONSE_RETRY_DELAY_MS = 1000`. -/
def EMPTY_RESPONSE_RETRY_DELAY_MS : Nat := 1000

/-- Observable outcome of `runWithEmptyResponseRetry`: the returned result and
attempt count, plus the sequence of sleeps performed between attempts. -/
structure RetryOutcome where
  result : String
  attempts : Nat
  sleeps : List Nat
deriving DecidableEq, Repr

/-- The `for (let attempt = 1; attempt <= maxAttempts; ...)` loop of
`runWithEmptyResponseRetry`, with `remaining = maxAttempts - attempt` as fuel.
At the final attempt the loop body and the fall-through both return the last
result with `attempts = maxAttempts`, so they are collapsed. -/
def retryLoop (runner : Nat → String) (delayMs attempt : Nat) : Nat → RetryOutcome
  | 0 => { result := runner attempt, attempts := attempt, sleeps := [] }
  | remaining + 1 =>
    let r := runner attempt
    if 0 < (jsTrim r).length then { result := r, attempts := attempt, sleeps := [] }
    else
      let rest := retryLoop runner delayMs (attempt + 1) remaining
      { rest with sleeps := delayMs :: rest.sleeps }

/-- From src/scripts/src/core/claude-retry.ts, `runWithEmptyResponseRetry`:
calls the runner up to `maxRetries + 1` times starting at attempt 1. -/
def runWithEmptyResponseRetry (runner : Nat → String) (maxRetries delayMs : Nat) :
    RetryOutcome :=
  retryLoop runner delayMs 1 maxRetries

theorem retryLoop_spec (runner : Nat → String) (delayMs : Nat) :
    ∀ remaining attempt : Nat,
      attempt ≤ (retryLoop runner delayMs attempt remaining).attempts ∧
      (retryLoop runner delayMs attempt remaining).attempts ≤ attempt + remaining ∧
      (retryLoop runner delayMs attempt remaining).result =
        runner (retryLoop runner delayMs attempt remaining).attempts ∧
      (retryLoop runner delayMs attempt remaining).sleeps =
        List.replicate ((retryLoop runner delayMs attempt remaining).attempts - attempt)
          delayMs ∧
      (∀ i, attempt ≤ i → i < (retryLoop runner delayMs attempt remaining).attempts →
        (jsTrim (runner i)).length = 0) ∧
      (0 < (jsTrim (runner (retryLoop runner delayMs attempt remaining).attempts)).length ∨
        (retryLoop runner delayMs attempt remaining).attempts = attempt + remaining) := by
  intro remaining
  induction remaining with
  | zero =>
    intro attempt
    simp [retryLoop]
    omega
  | succ n ih =>
    intro attempt
    by_cases h : 0 < (jsTrim (runner attempt)).length
    · simp [retryLoop, h]
      omega
    · have hz : (jsTrim (runner attempt)).length = 0 := by omega
      obtain ⟨h1, h2, h3, h4, h5, h6⟩ := ih (attempt + 1)
      simp only [retryLoop, if_neg h]
      refine ⟨by omega, by omega, h3, ?_, ?_, ?_⟩
      · rw [h4]
        have hrep : (retryLoop runner delayMs (attempt + 1) n).attempts - attempt =
            ((retryLoop runner delayMs (attempt + 1) n).attempts - (attempt + 1)) + 1 := by
          omega
        rw [hrep, List.replicate_succ]
      · intro i hi hlt
        rcases Nat.eq_or_lt_of_le hi with heq | hlt2
        · simpa [← heq] using hz
        · exact h5 i hlt2 hlt
      · rcases h6 with h6 | h6
        · exact Or.inl h6
        · exact Or.inr (by omega)

/-- Claim C5: with the default limits (3 retries, 1000 ms delay) the wrapper
performs between 1 and 4 attempts, returns the result of its final attempt,
sleeps the configured delay exactly once between consecutive attempts (k
attempts produce k-1 sleeps), returns at the first attempt whose trimmed
response is non-empty (all earlier attempts were whitespace-only), and when
every attempt is whitespace-only it returns the last result with attempts = 4;
it never fails. -/
theorem emptyResponseRetry_spec (runner : Nat → String) :
    1 ≤ (runWithEmptyResponseRetry runner EMPTY_RESPONSE_MAX_RETRIES
          EMPTY_RESPONSE_RETRY_DELAY_MS).attempts ∧
    (runWithEmptyResponseRetry runner EMPTY_RESPONSE_MAX_RETRIES
          EMPTY_RESPONSE_RETRY_DELAY_MS).attempts ≤ 4 ∧
    (runWithEmptyResponseRetry runner EMPTY_RESPONSE_MAX_RETRIES
          EMPTY_RESPONSE_RETRY_DELAY_MS).result =
      runner (runWithEmptyResponseRetry runner EMPTY_RESPONSE_MAX_RETRIES
          EMPTY_RESPONSE_RETRY_DELAY_MS).attempts ∧
    (runWithEmptyResponseRetry runner EMPTY_RESPONSE_MAX_RETRIES
          EMPTY_RESPONSE_RETRY_DELAY_MS).sleeps =
      List.replicate ((runWithEmptyResponseRetry runner EMPTY_RESPONSE_MAX_RETRIES
          EMPTY_RESPONSE_RETRY_DELAY_MS).attempts - 1) 1000 ∧
    (∀ i, 1 ≤ i → i < (runWithEmptyResponseRetry runner EMPTY_RESPONSE_MAX_RETRIES
          EMPTY_RESPONSE_RETRY_DELAY_MS).attempts → (jsTrim (runner i)).length = 0) ∧
    (0 < (jsTrim (runner (runWithEmptyResponseRetry runner EMPTY_RESPONSE_MAX_RETRIES
          EMPTY_RESPONSE_RETRY_DELAY_MS).attempts)).length ∨
      (runWithEmptyResponseRetry runner EMPTY_RESPONSE_MAX_RETRIES
          EMPTY_RESPONSE_RETRY_DELAY_MS).attempts = 4) ∧
    ((∀ i, 1 ≤ i → i ≤ 4 → (jsTrim (runner i)).length = 0) →
      (runWithEmptyResponseRetry runner EMPTY_RESPONSE_MAX_RETRIES
          EMPTY_RESPONSE_RETRY_DELAY_MS).attempts = 4 ∧
      (runWithEmptyResponseRetry runner EMPTY_RESPONSE_MAX_RETRIES
          EMPTY_RESPONSE_RETRY_DELAY_MS).result = runner 4) := by
  have hdef : runWithEmptyResponseRetry runner EMPTY_RESPONSE_MAX_RETRIES
      EMPTY_RESPONSE_RETRY_DELAY_MS = retryLoop runner 1000 1 3 := rfl
  rw [hdef]
  obtain ⟨h1, h2, h3, h4, h5, h6⟩ := retryLoop_spec runner 1000 3 1
  refine ⟨h1, by omega, h3, by simpa using h4, h5, by simpa using h6, ?_⟩
  intro hall
  have hat : (retryLoop runner 1000 1 3).attempts = 4 := by
    rcases h6 with h6 | h6
    · have := hall (retryLoop runner 1000 1 3).attempts h1 (by omega)
      omega
    · simpa using h6
  exact ⟨hat, by rw [h3, hat]⟩

/-- Witness for claim C5: a runner that always returns whitespace exhausts all
4 attempts and yields the last (whitespace) result. -/
theorem emptyResponseRetry_spec_witness :
    (runWithEmptyResponseRetry (fun _ => " ") EMPTY_RESPONSE_MAX_RETRIES
        EMPTY_RESPONSE_RETRY_DELAY_MS).attempts = 4 ∧
    (runWithEmptyResponseRetry (fun _ => " ") EMPTY_RESPONSE_MAX_RETRIES
        EMPTY_RESPONSE_RETRY_DELAY_MS).result = (fun _ : Nat => " ") 4 :=
  (emptyResponseRetry_spec (fun _ => " ")).2.2.2.2.2.2 (fun _ _ _ => by decide)

/-! ## Worker retry / dead-letter policy (claim C3)

From src/scripts/src/adapters/config-adapter.ts (`runWorkerLoop`'s catch
block) and src/scripts/src/core/discord-errors.ts.  A thrown error is one
of the two marker classes (`TerminalEventError`, `RetryableEventError`,
neither of which declares a numeric `code` field) or any other error,
which may carry a chat-platform `code`. -/

/-- From src/scripts/src/core/discord-errors.ts: `TERMINAL_DISCORD_CODES`. -/
def TERMINAL_DISCORD_CODES : List Int := [10003, 10008, 50001, 50013]

/-- An error thrown by an event handler, as the worker's catch block can
distinguish it. -/
inductive DispatchError where
  | terminalEvent (msg : String)
  | retryableEvent (msg : String) (delayMs : Option Int)
  | plain (msg : String) (code : Option Int)
deriving DecidableEq

/-- `toErrorMessage` restricted to the three shapes above. -/
def DispatchError.message : DispatchError → String
  | .terminalEvent m => m
  | .retryableEvent m _ => m
  | .plain m _ => m

/-- From src/scripts/src/core/discord-errors.ts, `parseDiscordCode`: reads the
numeric `code` field; the marker classes declare none. -/
def parseDiscordCode : DispatchError → Option Int
  | .plain _ c => c
  | _ => none

/-- From src/scripts/src/core/discord-errors.ts, `isTerminalDiscordError`. -/
def isTerminalDiscordError (e : DispatchError) : Bool :=
  match parseDiscordCode e with
  | none => false
  | some c => TERMINAL_DISCORD_CODES.contains c

/-- From src/scripts/src/adapters/config-adapter.ts: `MAX_ATTEMPTS = 20`. -/
def MAX_ATTEMPTS : Nat := 20

/-- The store-side action the worker takes for a failed event. -/
inductive WorkerAction where
  | dead (reason : String)
  | retry (reason : String) (delayMs : Int)
deriving DecidableEq

/-- From src/scripts/src/adapters/config-adapter.ts, `runWorkerLoop`'s catch
block: `attemptNumber = event.attemptCount + 1`; a `TerminalEventError` or a
terminal chat-platform code dead-letters; `attemptNumber >= MAX_ATTEMPTS`
dead-letters with a "max attempts reached" reason; otherwise retry with the
`RetryableEventError`'s truthy `delayMs` if any, else
`calculateBackoffMs(attemptNumber)`. -/
def workerErrorPolicy (attemptCount : Nat) (e : DispatchError) : WorkerAction :=
  let errorMessage := e.message
  let attemptNumber := attemptCount + 1
  match e with
  | .terminalEvent _ => .dead errorMessage
  | _ =>
    if isTerminalDiscordError e then .dead errorMessage
    else if MAX_ATTEMPTS ≤ attemptNumber then
      .dead ("max attempts reached: " ++ errorMessage)
    else
      let delayMs : Int :=
        match e with
        | .retryableEvent _ (some d) =>
          if d ≠ 0 then d else (calculateBackoffMs attemptNumber : Int)
        | _ => (calculateBackoffMs attemptNumber : Int)
      .retry errorMessage delayMs

/-- Claim C3: for a claimed event whose handler raised `e`, the worker marks
the event dead when `e` is the terminal marker or carries a chat-platform code
in {10003, 10008, 50001, 50013}; otherwise, when `attempt_count + 1 ≥ 20`, it
marks it dead with a reason containing "max attempts reached"; otherwise it
marks it retry with the handler's advisory delay when one is present (a truthy
`delayMs` on the retryable marker), else `backoff_ms(attempt_count + 1)`. -/
theorem workerErrorPolicy_spec (attemptCount : Nat) (e : DispatchError) :
    (((∃ m, e = .terminalEvent m) ∨
        ∃ c, parseDiscordCode e = some c ∧
          (c = 10003 ∨ c = 10008 ∨ c = 50001 ∨ c = 50013)) →
      workerErrorPolicy attemptCount e = .dead e.message) ∧
    ((∀ m, e ≠ .terminalEvent m) →
      (∀ c, parseDiscordCode e = some c →
        ¬(c = 10003 ∨ c = 10008 ∨ c = 50001 ∨ c = 50013)) →
      20 ≤ attemptCount + 1 →
      workerErrorPolicy attemptCount e =
        .dead ("max attempts reached: " ++ e.message)) ∧
    (∀ m d, e = .retryableEvent m (some d) → d ≠ 0 →
      attemptCount + 1 < 20 →
      workerErrorPolicy attemptCount e = .retry e.message d) ∧
    ((∀ m, e ≠ .terminalEvent m) →
      (∀ c, parseDiscordCode e = some c →
        ¬(c = 10003 ∨ c = 10008 ∨ c = 50001 ∨ c = 50013)) →
      (∀ m d, e = .retryableEvent m (some d) → d = 0) →
      attemptCount + 1 < 20 →
      workerErrorPolicy attemptCount e =
        .retry e.message (calculateBackoffMs (attemptCount + 1) : Int)) := by
  refine ⟨?_, ?_, ?_, ?_⟩
  · rintro (⟨m, rfl⟩ | ⟨c, hc, hmem⟩)
    · rfl
    · have hterm : isTerminalDiscordError e = true := by
        simp [isTerminalDiscordError, hc, TERMINAL_DISCORD_CODES]
        rcases hmem with h | h | h | h <;> simp [h]
      cases e with
      | terminalEvent m => rfl
      | retryableEvent m d => simp [parseDiscordCode] at hc
      | plain m c0 =>
        simp [workerErrorPolicy, hterm]
  · intro hnt hnc hmax
    have hterm : isTerminalDiscordError e = false := by
      cases e with
      | terminalEvent m => exact absurd rfl (hnt m)
      | retryableEvent m d => rfl
      | plain m c0 =>
        cases c0 with
        | none => rfl
        | some c =>
          have := hnc c (by rfl)
          simp [isTerminalDiscordError, parseDiscordCode, TERMINAL_DISCORD_CODES]
          omega
    cases e with
    | terminalEvent m => exact absurd rfl (hnt m)
    | retryableEvent m d =>
      simp [workerErrorPolicy, hterm, MAX_ATTEMPTS, hmax, DispatchError.message]
    | plain m c0 =>
      simp [workerErrorPolicy, hterm, MAX_ATTEMPTS, hmax, DispatchError.message]
  · rintro m d rfl hd hlt
    have hterm : isTerminalDiscordError (.retryableEvent m (some d)) = false := rfl
    simp [workerErrorPolicy, hterm, MAX_ATTEMPTS, DispatchError.message, hd]
    omega
  · intro hnt hnc hzero hlt
    have hterm : isTerminalDiscordError e = false := by
      cases e with
      | terminalEvent m => exact absurd rfl (hnt m)
      | retryableEvent m d => rfl
      | plain m c0 =>
        cases c0 with
        | none => rfl
        | some c =>
          have := hnc c (by rfl)
          simp [isTerminalDiscordError, parseDiscordCode, TERMINAL_DISCORD_CODES]
          omega
    cases e with
    | terminalEvent m => exact absurd rfl (hnt m)
    | retryableEvent m d =>
      cases d with
      | none =>
        simp [workerErrorPolicy, hterm, MAX_ATTEMPTS, DispatchError.message]
        omega
      | some dv =>
        have hdv : dv = 0 := hzero m dv rfl
        subst hdv
        simp [workerErrorPolicy, hterm, MAX_ATTEMPTS, DispatchError.message]
        omega
    | plain m c0 =>
      simp [workerErrorPolicy, hterm, MAX_ATTEMPTS, DispatchError.message]
      omega

/-- Witness for claim C3: an unknown-message platform error (code 10008) is
dead-lettered, and a bare error at attempt count 0 is retried with
`backoff_ms(1) = 1000`. -/
theorem workerErrorPolicy_spec_witness :
    workerErrorPolicy 0 (.plain "unknown message" (some 10008)) =
      .dead "unknown message" ∧
    workerErrorPolicy 0 (.plain "network hiccup" none) =
      .retry "network hiccup" (calculateBackoffMs 1 : Int) :=
  ⟨(workerErrorPolicy_spec 0 (.plain "unknown message" (some 10008))).1
      (Or.inr ⟨10008, rfl, Or.inr (Or.inl rfl)⟩),
    (workerErrorPolicy_spec 0 (.plain "network hiccup" none)).2.2.2
      (fun m => by simp) (fun c hc => by simp [parseDiscordCode] at hc)
      (fun m d h => by simp at h) (by decide)⟩

/-! ## Message chunking (claims C6 and C9)

From src/unnamed/part_007 (`splitMessage`, `sendChunksWithFallback`) and
src/scripts/src/core/outbound-dm-policy.ts.  JavaScript strings are
indexed by UTF-16 code units, so text is modelled as `List Nat`, one
element per code unit; `length`, `slice`, `lastIndexOf` and `trim` then
agree with their JavaScript meanings. -/

/-- A JavaScript string as its sequence of UTF-16 code units. -/
abbrev JsStr := List Nat

/-- From src/unnamed/part_007: `DISCORD_MAX_LENGTH = 2000`. -/
def DISCORD_MAX_LENGTH : Nat := 2000

/-- The code unit of `"\n"`. -/
def NEWLINE_UNIT : Nat := 10

/-- The code unit of `" "`. -/
def SPACE_UNIT : Nat := 32

/-- JavaScript `s.trim().length === 0`: every code unit is whitespace. -/
def jsTrimEmpty (s : JsStr) : Bool := s.all isJsWsCode

/-- JavaScript `s.trimStart()`. -/
def jsTrimStart (s : JsStr) : JsStr := s.dropWhile isJsWsCode

/-- JavaScript `s.trim()` on a code-unit sequence. -/
def jsTrimUnits (s : JsStr) : JsStr :=
  ((s.dropWhile isJsWsCode).reverse.dropWhile isJsWsCode).reverse

/-- Largest index `i ≤ bound` with `s[i] = c`, scanning downwards from
`bound`; the sentinel default `c + 1` never matches, so out-of-range
indices are skipped. -/
def lastIndexWithin (c : Nat) (s : JsStr) : Nat → Option Nat
  | 0 => if s.getD 0 (c + 1) = c then some 0 else none
  | i + 1 => if s.getD (i + 1) (c + 1) = c then some (i + 1) else lastIndexWithin c s i

/-- JavaScript `s.lastIndexOf(c, fromIdx)` for a single code unit: the found
index, or -1. -/
def jsLastIndexOf (c : Nat) (s : JsStr) (fromIdx : Nat) : Int :=
  match lastIndexWithin c s fromIdx with
  | some i => (i : Int)
  | none => -1

/-- From src/unnamed/part_007, the cut-position computation inside
`splitMessage`'s loop:
`let splitIndex = remaining.lastIndexOf("\n", DISCORD_MAX_LENGTH);
if (splitIndex <= 0) splitIndex = remaining.lastIndexOf(" ", DISCORD_MAX_LENGTH);
if (splitIndex <= 0) splitIndex = DISCORD_MAX_LENGTH;` -/
def splitCut (s : JsStr) : Nat :=
  let i1 : Int := jsLastIndexOf NEWLINE_UNIT s DISCORD_MAX_LENGTH
  let i2 : Int := if i1 ≤ 0 then jsLastIndexOf SPACE_UNIT s DISCORD_MAX_LENGTH else i1
  if i2 ≤ 0 then DISCORD_MAX_LENGTH else i2.toNat

theorem lastIndexWithin_le (c : Nat) (s : JsStr) :
    ∀ b i, lastIndexWithin c s b = some i → i ≤ b := by
  intro b
  induction b with
  | zero =>
    intro i h
    simp only [lastIndexWithin] at h
    split at h
    · simp at h; omega
    · simp at h
  | succ n ih =>
    intro i h
    simp only [lastIndexWithin] at h
    split at h
    · simp at h; omega
    · exact Nat.le_trans (ih i h) (by omega)

theorem getD_sentinel_iff (s : JsStr) (j c : Nat) :
    s.getD j (c + 1) = c ↔ s[j]? = some c := by
  rw [List.getD_eq_getElem?_getD]
  cases h : s[j]? with
  | none => simp
  | some v => simp

theorem lastIndexWithin_found (c : Nat) (s : JsStr) :
    ∀ b i, lastIndexWithin c s b = some i →
      s[i]? = some c ∧ ∀ j, i < j → j ≤ b → s[j]? ≠ some c := by
  intro b
  induction b with
  | zero =>
    intro i h
    simp only [lastIndexWithin] at h
    split at h
    · rename_i hc
      rcases Option.some.inj h with rfl
      exact ⟨(getD_sentinel_iff s 0 c).mp hc, fun j hj hj2 => by omega⟩
    · simp at h
  | succ n ih =>
    intro i h
    simp only [lastIndexWithin] at h
    split at h
    · rename_i hc
      rcases Option.some.inj h with rfl
      exact ⟨(getD_sentinel_iff s (n + 1) c).mp hc, fun j hj hj2 => by omega⟩
    · rename_i hc
      obtain ⟨h1, h2⟩ := ih i h
      refine ⟨h1, fun j hj hj2 => ?_⟩
      rcases Nat.lt_or_ge j (n + 1) with hlt | hge
      · exact h2 j hj (by omega)
      · have hj : j = n + 1 := by omega
        subst hj
        intro hcon
        exact hc ((getD_sentinel_iff s (n + 1) c).mpr hcon)

theorem lastIndexWithin_not_found (c : Nat) (s : JsStr) :
    ∀ b, lastIndexWithin c s b = none → ∀ j, j ≤ b → s[j]? ≠ some c := by
  intro b
  induction b with
  | zero =>
    intro h j hj
    simp only [lastIndexWithin] at h
    split at h
    · simp at h
    · rename_i hc
      have hj : j = 0 := by omega
      subst hj
      exact fun hcon => hc ((getD_sentinel_iff s 0 c).mpr hcon)
  | succ n ih =>
    intro h j hj
    simp only [lastIndexWithin] at h
    split at h
    · simp at h
    · rename_i hc
      rcases Nat.lt_or_ge j (n + 1) with hlt | hge
      · exact ih h j (by omega)
      · have hj : j = n + 1 := by omega
        subst hj
        exact fun hcon => hc ((getD_sentinel_iff s (n + 1) c).mpr hcon)

theorem splitCut_cases (s : JsStr) :
    (∃ i, lastIndexWithin NEWLINE_UNIT s DISCORD_MAX_LENGTH = some i ∧ 1 ≤ i ∧
        splitCut s = i) ∨
    ((∀ i, lastIndexWithin NEWLINE_UNIT s DISCORD_MAX_LENGTH = some i → i = 0) ∧
      ∃ j, lastIndexWithin SPACE_UNIT s DISCORD_MAX_LENGTH = some j ∧ 1 ≤ j ∧
        splitCut s = j) ∨
    ((∀ i, lastIndexWithin NEWLINE_UNIT s DISCORD_MAX_LENGTH = some i → i = 0) ∧
      (∀ j, lastIndexWithin SPACE_UNIT s DISCORD_MAX_LENGTH = some j → j = 0) ∧
      splitCut s = DISCORD_MAX_LENGTH) := by
  cases h1 : lastIndexWithin NEWLINE_UNIT s DISCORD_MAX_LENGTH with
  | some i =>
    by_cases hi : i = 0
    · subst hi
      cases h2 : lastIndexWithin SPACE_UNIT s DISCORD_MAX_LENGTH with
      | some j =>
        by_cases hj : j = 0
        · subst hj
          refine Or.inr (Or.inr ⟨?_, ?_, ?_⟩)
          · intro i hi2; exact (Option.some.inj hi2).symm
          · intro j hj2; exact (Option.some.inj hj2).symm
          · simp only [splitCut, jsLastIndexOf, h1, h2]
            split_ifs <;> omega
        · refine Or.inr (Or.inl ⟨?_, j, rfl, by omega, ?_⟩)
          · intro i hi2; exact (Option.some.inj hi2).symm
          · simp only [splitCut, jsLastIndexOf, h1, h2]
            split_ifs <;> omega
      | none =>
        refine Or.inr (Or.inr ⟨?_, ?_, ?_⟩)
        · intro i hi2; exact (Option.some.inj hi2).symm
        · intro j hj2; exact absurd hj2 (by simp)
        · simp only [splitCut, jsLastIndexOf, h1, h2]
          split_ifs <;> omega
    · refine Or.inl ⟨i, rfl, by omega, ?_⟩
      simp only [splitCut, jsLastIndexOf, h1]
      split_ifs <;> omega
  | none =>
    cases h2 : lastIndexWithin SPACE_UNIT s DISCORD_MAX_LENGTH with
    | some j =>
      by_cases hj : j = 0
      · subst hj
        refine Or.inr (Or.inr ⟨?_, ?_, ?_⟩)
        · intro i hi2; exact absurd hi2 (by simp)
        · intro j hj2; exact (Option.some.inj hj2).symm
        · simp only [splitCut, jsLastIndexOf, h1, h2]
          split_ifs <;> omega
      · refine Or.inr (Or.inl ⟨?_, j, rfl, by omega, ?_⟩)
        · intro i hi2; exact absurd hi2 (by simp)
        · simp only [splitCut, jsLastIndexOf, h1, h2]
          split_ifs <;> omega
    | none =>
      refine Or.inr (Or.inr ⟨?_, ?_, ?_⟩)
      · intro i hi2; exact absurd hi2 (by simp)
      · intro j hj2; exact absurd hj2 (by simp)
      · simp only [splitCut, jsLastIndexOf, h1, h2]
        split_ifs <;> omega

theorem splitCut_pos (s : JsStr) : 1 ≤ splitCut s := by
  have hd : DISCORD_MAX_LENGTH = 2000 := rfl
  rcases splitCut_cases s with ⟨i, _, hi, heq⟩ | ⟨_, j, _, hj, heq⟩ | ⟨_, _, heq⟩ <;>
    omega

theorem splitCut_le (s : JsStr) : splitCut s ≤ DISCORD_MAX_LENGTH := by
  rcases splitCut_cases s with ⟨i, hfound, hi, heq⟩ | ⟨_, j, hfound, hj, heq⟩ |
    ⟨_, _, heq⟩
  · have := lastIndexWithin_le _ _ _ _ hfound
    omega
  · have := lastIndexWithin_le _ _ _ _ hfound
    omega
  · omega

theorem jsTrimStart_length_le (s : JsStr) : (jsTrimStart s).length ≤ s.length := by
  simp only [jsTrimStart]
  calc (s.dropWhile isJsWsCode).length
      ≤ (s.takeWhile isJsWsCode).length + (s.dropWhile isJsWsCode).length :=
        Nat.le_add_left _ _
    _ = s.length := by rw [← List.length_append, List.takeWhile_append_dropWhile]

/-- From src/unnamed/part_007, the `while (remaining.length > 0)` loop of
`splitMessage`: short final piece is pushed when not all-whitespace;
otherwise cut at `splitCut`, push the chunk when not all-whitespace, and
continue with the rest stripped of its leading whitespace. -/
def splitLoop (s : JsStr) : List JsStr :=
  if s.length = 0 then []
  else if s.length ≤ DISCORD_MAX_LENGTH then
    if jsTrimEmpty s then [] else [s]
  else
    let chunk := s.take (splitCut s)
    let rest := jsTrimStart (s.drop (splitCut s))
    (if jsTrimEmpty chunk then [] else [chunk]) ++ splitLoop rest
termination_by s.length
decreasing_by
  have h1 : 1 ≤ splitCut s := splitCut_pos s
  have h2 : (jsTrimStart (s.drop (splitCut s))).length ≤ (s.drop (splitCut s)).length :=
    jsTrimStart_length_le _
  simp only [List.length_drop] at h2
  omega

/-- From src/unnamed/part_007, `splitMessage`: whitespace-only text yields no
chunks, short text is returned whole, otherwise the loop runs and the result
is filtered of all-whitespace chunks. -/
def splitMessage (s : JsStr) : List JsStr :=
  if jsTrimEmpty s then []
  else if s.length ≤ DISCORD_MAX_LENGTH then [s]
  else (splitLoop s).filter (fun c => !jsTrimEmpty c)

theorem mem_takeWhile_ws (s : JsStr) :
    ∀ u ∈ s.takeWhile isJsWsCode, isJsWsCode u = true := by
  induction s with
  | nil => intro u hu; simp [List.takeWhile] at hu
  | cons a l ih =>
    intro u hu
    by_cases ha : isJsWsCode a
    · rw [List.takeWhile_cons_of_pos ha] at hu
      rcases List.mem_cons.mp hu with rfl | hu2
      · exact ha
      · exact ih u hu2
    · rw [List.takeWhile_cons_of_neg ha] at hu
      simp at hu

theorem splitLoop_eq (s : JsStr) :
    splitLoop s =
      if s.length = 0 then []
      else if s.length ≤ DISCORD_MAX_LENGTH then if jsTrimEmpty s then [] else [s]
      else
        (if jsTrimEmpty (s.take (splitCut s)) then [] else [s.take (splitCut s)]) ++
          splitLoop (jsTrimStart (s.drop (splitCut s))) := by
  rw [splitLoop]

theorem splitLoop_chunks : ∀ (n : Nat) (s : JsStr), s.length ≤ n →
    ∀ c ∈ splitLoop s, c.length ≤ DISCORD_MAX_LENGTH ∧ jsTrimEmpty c = false := by
  intro n
  induction n with
  | zero =>
    intro s hs c hc
    have hnil : s = [] := List.length_eq_zero.mp (by omega)
    subst hnil
    rw [splitLoop_eq] at hc
    simp at hc
  | succ n ih =>
    intro s hs c hc
    rw [splitLoop_eq] at hc
    by_cases h0 : s.length = 0
    · simp [h0] at hc
    · rw [if_neg h0] at hc
      by_cases hshort : s.length ≤ DISCORD_MAX_LENGTH
      · rw [if_pos hshort] at hc
        by_cases hws : jsTrimEmpty s
        · simp [hws] at hc
        · rw [if_neg hws] at hc
          rcases List.mem_singleton.mp hc with rfl
          exact ⟨hshort, Bool.not_eq_true _ ▸ eq_false_of_ne_true hws⟩
      · rw [if_neg hshort] at hc
        rcases List.mem_append.mp hc with hc1 | hc2
        · by_cases hws : jsTrimEmpty (s.take (splitCut s))
          · simp [hws] at hc1
          · rw [if_neg hws] at hc1
            rcases List.mem_singleton.mp hc1 with rfl
            refine ⟨?_, eq_false_of_ne_true hws⟩
            have hk := splitCut_le s
            simp only [List.length_take]
            omega
        · have hlen : (jsTrimStart (s.drop (splitCut s))).length ≤ n := by
            have h1 := jsTrimStart_length_le (s.drop (splitCut s))
            have h2 := splitCut_pos s
            simp only [List.length_drop] at h1
            omega
          exact ih _ hlen c hc2

/-- Concatenation of `seps` and `chunks` alternating, starting and ending
with a separator (`seps` has one more element than `chunks`). -/
def altJoin : List JsStr → List JsStr → JsStr
  | [], _ => []
  | w :: _, [] => w
  | w :: ws, c :: cs => w ++ c ++ altJoin ws cs

theorem altJoin_absorb (a w : JsStr) (ws cs : List JsStr) :
    altJoin ((a ++ w) :: ws) cs = a ++ altJoin (w :: ws) cs := by
  cases cs <;> simp [altJoin]

theorem splitLoop_reconstruct : ∀ (n : Nat) (s : JsStr), s.length ≤ n →
    ∃ seps : List JsStr, seps.length = (splitLoop s).length + 1 ∧
      (∀ w ∈ seps, ∀ u ∈ w, isJsWsCode u = true) ∧
      altJoin seps (splitLoop s) = s := by
  intro n
  induction n with
  | zero =>
    intro s hs
    have hnil : s = [] := List.length_eq_zero.mp (by omega)
    subst hnil
    rw [splitLoop_eq]
    exact ⟨[[]], by simp, by simp, by simp [altJoin]⟩
  | succ n ih =>
    intro s hs
    rw [splitLoop_eq]
    by_cases h0 : s.length = 0
    · have hnil : s = [] := List.length_eq_zero.mp h0
      subst hnil
      exact ⟨[[]], by simp, by simp, by simp [altJoin]⟩
    · rw [if_neg h0]
      by_cases hshort : s.length ≤ DISCORD_MAX_LENGTH
      · rw [if_pos hshort]
        by_cases hws : jsTrimEmpty s
        · rw [if_pos hws]
          refine ⟨[s], by simp, ?_, by simp [altJoin]⟩
          intro w hw u hu
          rcases List.mem_singleton.mp hw with rfl
          exact List.all_eq_true.mp hws u hu
        · rw [if_neg hws]
          exact ⟨[[], []], by simp, by simp, by simp [altJoin]⟩
      · rw [if_neg hshort]
        set k := splitCut s with hk
        set chunk := s.take k with hchunk
        set dropped := (s.drop k).takeWhile isJsWsCode with hdropped
        set rest := jsTrimStart (s.drop k) with hrest
        have hs_split : chunk ++ (dropped ++ rest) = s := by
          rw [hchunk, hdropped, hrest, jsTrimStart]
          rw [List.takeWhile_append_dropWhile, List.take_append_drop]
        have hlen : rest.length ≤ n := by
          have h1 := jsTrimStart_length_le (s.drop k)
          have h2 := splitCut_pos s
          rw [← hk] at h2
          simp only [List.length_drop] at h1
          rw [hrest]
          omega
        obtain ⟨seps, hslen, hsws, hsjoin⟩ := ih rest hlen
        cases seps with
        | nil => simp at hslen
        | cons w0 wrest =>
          by_cases hws : jsTrimEmpty chunk
          · rw [if_pos hws]
            refine ⟨(chunk ++ dropped ++ w0) :: wrest, ?_, ?_, ?_⟩
            · simpa using hslen
            · intro w hw u hu
              rcases List.mem_cons.mp hw with rfl | hw2
              · rcases List.mem_append.mp hu with hu1 | hu2
                · rcases List.mem_append.mp hu1 with hu3 | hu4
                  · exact List.all_eq_true.mp hws u hu3
                  · exact mem_takeWhile_ws _ u hu4
                · exact hsws w0 (List.mem_cons_self w0 wrest) u hu2
              · exact hsws w (List.mem_cons_of_mem _ hw2) u hu
            · rw [List.nil_append, List.append_assoc chunk dropped w0,
                altJoin_absorb chunk (dropped ++ w0) wrest,
                altJoin_absorb dropped w0 wrest, hsjoin]
              exact hs_split
          · rw [if_neg hws]
            refine ⟨[] :: (dropped ++ w0) :: wrest, ?_, ?_, ?_⟩
            · simpa using hslen
            · intro w hw u hu
              rcases List.mem_cons.mp hw with rfl | hw2
              · simp at hu
              · rcases List.mem_cons.mp hw2 with rfl | hw3
                · rcases List.mem_append.mp hu with hu1 | hu2
                  · exact mem_takeWhile_ws _ u hu1
                  · exact hsws w0 (List.mem_cons_self w0 wrest) u hu2
                · exact hsws w (List.mem_cons_of_mem _ hw3) u hu
            · show [] ++ chunk ++ altJoin ((dropped ++ w0) :: wrest) (splitLoop rest) = s
              rw [List.nil_append, altJoin_absorb dropped w0 wrest, hsjoin]
              exact hs_split

/-- Claim C6: every chunk of `splitMessage t` is at most 2000 UTF-16 code
units long and none is all-whitespace (whitespace-only input yields no
chunks); each cut position is the last newline at a positive index at or
before the 2000 limit, else the last such space, else a hard cut at 2000; and
the chunks interleaved with the whitespace separators dropped at the cut
points concatenate back to `t`. -/
theorem splitMessage_spec (t : JsStr) :
    (∀ c ∈ splitMessage t, c.length ≤ DISCORD_MAX_LENGTH ∧ jsTrimEmpty c = false) ∧
    (jsTrimEmpty t = true → splitMessage t = []) ∧
    (∃ seps : List JsStr, seps.length = (splitMessage t).length + 1 ∧
      (∀ w ∈ seps, ∀ u ∈ w, isJsWsCode u = true) ∧
      altJoin seps (splitMessage t) = t) ∧
    (∀ r : JsStr,
      (∃ i, 1 ≤ i ∧ i ≤ DISCORD_MAX_LENGTH ∧ r[i]? = some NEWLINE_UNIT ∧
        splitCut r = i ∧
        ∀ j, i < j → j ≤ DISCORD_MAX_LENGTH → r[j]? ≠ some NEWLINE_UNIT) ∨
      ((∀ j, 1 ≤ j → j ≤ DISCORD_MAX_LENGTH → r[j]? ≠ some NEWLINE_UNIT) ∧
        ∃ i, 1 ≤ i ∧ i ≤ DISCORD_MAX_LENGTH ∧ r[i]? = some SPACE_UNIT ∧
          splitCut r = i ∧
          ∀ j, i < j → j ≤ DISCORD_MAX_LENGTH → r[j]? ≠ some SPACE_UNIT) ∨
      ((∀ j, 1 ≤ j → j ≤ DISCORD_MAX_LENGTH → r[j]? ≠ some NEWLINE_UNIT) ∧
        (∀ j, 1 ≤ j → j ≤ DISCORD_MAX_LENGTH → r[j]? ≠ some SPACE_UNIT) ∧
        splitCut r = DISCORD_MAX_LENGTH)) := by
  refine ⟨?_, ?_, ?_, ?_⟩
  · intro c hc
    simp only [splitMessage] at hc
    by_cases hws : jsTrimEmpty t
    · simp [hws] at hc
    · rw [if_neg hws] at hc
      by_cases hshort : t.length ≤ DISCORD_MAX_LENGTH
      · rw [if_pos hshort] at hc
        rcases List.mem_singleton.mp hc with rfl
        exact ⟨hshort, eq_false_of_ne_true hws⟩
      · rw [if_neg hshort] at hc
        exact splitLoop_chunks t.length t (le_refl _) c (List.mem_filter.mp hc).1
  · intro hws
    simp [splitMessage, hws]
  · simp only [splitMessage]
    by_cases hws : jsTrimEmpty t
    · rw [if_pos hws]
      refine ⟨[t], by simp, ?_, by simp [altJoin]⟩
      intro w hw u hu
      rcases List.mem_singleton.mp hw with rfl
      exact List.all_eq_true.mp hws u hu
    · rw [if_neg hws]
      by_cases hshort : t.length ≤ DISCORD_MAX_LENGTH
      · rw [if_pos hshort]
        exact ⟨[[], []], by simp, by simp, by simp [altJoin]⟩
      · rw [if_neg hshort]
        have hfilter : (splitLoop t).filter (fun c => !jsTrimEmpty c) = splitLoop t := by
          rw [List.filter_eq_self]
          intro c hc
          have := (splitLoop_chunks t.length t (le_refl _) c hc).2
          simp [this]
        rw [hfilter]
        exact splitLoop_reconstruct t.length t (le_refl _)
  · intro r
    rcases splitCut_cases r with ⟨i, hfound, hi, heq⟩ | ⟨hnone, j, hfound, hj, heq⟩ |
      ⟨hn1, hn2, heq⟩
    · obtain ⟨hocc, hafter⟩ := lastIndexWithin_found _ _ _ _ hfound
      exact Or.inl ⟨i, hi, lastIndexWithin_le _ _ _ _ hfound, hocc, heq, hafter⟩
    · refine Or.inr (Or.inl ⟨?_, ?_⟩)
      · intro j2 hj2 hj3 hcon
        cases hni : lastIndexWithin NEWLINE_UNIT r DISCORD_MAX_LENGTH with
        | none => exact lastIndexWithin_not_found _ _ _ hni j2 hj3 hcon
        | some i0 =>
          have hi0 : i0 = 0 := hnone i0 hni
          subst hi0
          obtain ⟨_, hafter⟩ := lastIndexWithin_found _ _ _ _ hni
          exact hafter j2 (by omega) hj3 hcon
      · obtain ⟨hocc, hafter⟩ := lastIndexWithin_found _ _ _ _ hfound
        exact ⟨j, hj, lastIndexWithin_le _ _ _ _ hfound, hocc, heq, hafter⟩
    · refine Or.inr (Or.inr ⟨?_, ?_, heq⟩)
      · intro j2 hj2 hj3 hcon
        cases hni : lastIndexWithin NEWLINE_UNIT r DISCORD_MAX_LENGTH with
        | none => exact lastIndexWithin_not_found _ _ _ hni j2 hj3 hcon
        | some i0 =>
          have hi0 : i0 = 0 := hn1 i0 hni
          subst hi0
          obtain ⟨_, hafter⟩ := lastIndexWithin_found _ _ _ _ hni
          exact hafter j2 (by omega) hj3 hcon
      · intro j2 hj2 hj3 hcon
        cases hni : lastIndexWithin SPACE_UNIT r DISCORD_MAX_LENGTH with
        | none => exact lastIndexWithin_not_found _ _ _ hni j2 hj3 hcon
        | some j0 =>
          have hj0 : j0 = 0 := hn2 j0 hni
          subst hj0
          obtain ⟨_, hafter⟩ := lastIndexWithin_found _ _ _ _ hni
          exact hafter j2 (by omega) hj3 hcon

/-- Witness for claim C6: a whitespace-only input yields no chunks, and the
single chunk of a one-letter input is within the limit and not whitespace. -/
theorem splitMessage_spec_witness :
    splitMessage [32] = [] ∧
    ([97] : JsStr).length ≤ DISCORD_MAX_LENGTH ∧ jsTrimEmpty [97] = false :=
  ⟨(splitMessage_spec [32]).2.1 (by decide),
    (splitMessage_spec [97]).1 [97] (by decide)⟩

/-- Code units of a Lean string all of whose characters lie in the Basic
Multilingual Plane (one UTF-16 unit per character). -/
def strUnits (s : String) : JsStr := s.data.map Char.toNat

/-- From src/unnamed/part_007: `EMPTY_RESPONSE_FALLBACK_MESSAGE`. -/
def EMPTY_RESPONSE_FALLBACK_MESSAGE : JsStr :=
  strUnits "（エージェントが応答できませんでした）"

/-- The four `outbound.dm.request` sources, from
src/scripts/src/core/bot-events.ts (`OutboundDmRequestPayload["source"]`). -/
inductive OutboundSource where
  | dm_reply
  | scheduler
  | manual_send
  | auth_error
deriving DecidableEq

/-- From src/scripts/src/core/outbound-dm-policy.ts:
`OutboundDmDeliveryPolicy`. -/
structure OutboundDmDeliveryPolicy where
  source : String
  fallbackMessage : Option JsStr

/-- From src/scripts/src/core/outbound-dm-policy.ts,
`resolveOutboundDmDeliveryPolicy`: scheduler requests get no fallback; every
other source gets the configured fallback message. -/
def resolveOutboundDmDeliveryPolicy (requestSource : OutboundSource) :
    OutboundDmDeliveryPolicy :=
  match requestSource with
  | .scheduler => { source := "scheduler", fallbackMessage := none }
  | _ => { source := "dm", fallbackMessage := some EMPTY_RESPONSE_FALLBACK_MESSAGE }

/-- From src/unnamed/part_007, `sendChunksWithFallback`: the list of messages
handed to the sender and the returned count.  When no non-empty chunk
remains, the trimmed fallback is sent iff it is a non-empty string. -/
def sendChunksWithFallback (text : JsStr) (fallbackMessage : Option JsStr) :
    List JsStr × Nat :=
  let chunks := (splitMessage text).filter (fun c => !jsTrimEmpty c)
  if chunks.length = 0 then
    match fallbackMessage with
    | some fb =>
      if (jsTrimUnits fb).length ≠ 0 then ([jsTrimUnits fb], 1) else ([], 0)
    | none => ([], 0)
  else (chunks, chunks.length)

/-- Claim C9: when chunking leaves no non-empty chunks, a scheduler-sourced
delivery sends nothing and returns 0 (its policy configures no fallback);
every other source sends the configured fallback message (which is non-empty
after trimming) and returns 1; in general the trimmed fallback is sent iff it
is non-empty, and 0 is returned exactly when no non-empty fallback is
configured. -/
theorem outboundFallback_spec (text : JsStr) (src : OutboundSource)
    (hempty : (splitMessage text).filter (fun c => !jsTrimEmpty c) = []) :
    (src = .scheduler →
      sendChunksWithFallback text
        (resolveOutboundDmDeliveryPolicy src).fallbackMessage = ([], 0)) ∧
    (src ≠ .scheduler →
      sendChunksWithFallback text
        (resolveOutboundDmDeliveryPolicy src).fallbackMessage =
        ([jsTrimUnits EMPTY_RESPONSE_FALLBACK_MESSAGE], 1)) ∧
    (∀ fb : JsStr, (jsTrimUnits fb).length ≠ 0 →
      sendChunksWithFallback text (some fb) = ([jsTrimUnits fb], 1)) ∧
    (∀ fbOpt : Option JsStr,
      (sendChunksWithFallback text fbOpt).2 = 0 ↔
        (jsTrimUnits (fbOpt.getD [])).length = 0) := by
  have hzero : ((splitMessage text).filter (fun c => !jsTrimEmpty c)).length = 0 := by
    rw [hempty]; rfl
  refine ⟨?_, ?_, ?_, ?_⟩
  · rintro rfl
    simp [sendChunksWithFallback, hzero, resolveOutboundDmDeliveryPolicy]
  · intro hne
    have hfb : (resolveOutboundDmDeliveryPolicy src).fallbackMessage =
        some EMPTY_RESPONSE_FALLBACK_MESSAGE := by
      cases src with
      | scheduler => exact absurd rfl hne
      | dm_reply => rfl
      | manual_send => rfl
      | auth_error => rfl
    rw [hfb]
    have hmsg : (jsTrimUnits EMPTY_RESPONSE_FALLBACK_MESSAGE).length ≠ 0 := by decide
    simp [sendChunksWithFallback, hzero, hmsg]
  · intro fb hfb
    simp [sendChunksWithFallback, hzero, hfb]
  · intro fbOpt
    cases fbOpt with
    | none =>
      constructor
      · intro _
        rfl
      · intro _
        simp [sendChunksWithFallback, hzero]
    | some fb =>
      simp only [sendChunksWithFallback, hzero, if_pos rfl, Option.getD]
      by_cases hfb : (jsTrimUnits fb).length = 0
      · simp [hfb]
      · simp [hfb]

/-- Witness for claim C9: with empty text, a scheduler request returns 0 and
a DM-reply request sends the fallback and returns 1. -/
theorem outboundFallback_spec_witness :
    sendChunksWithFallback []
      (resolveOutboundDmDeliveryPolicy .scheduler).fallbackMessage = ([], 0) ∧
    sendChunksWithFallback []
      (resolveOutboundDmDeliveryPolicy .dm_reply).fallbackMessage =
      ([jsTrimUnits EMPTY_RESPONSE_FALLBACK_MESSAGE], 1) :=
  ⟨(outboundFallback_spec [] .scheduler (by decide)).1 rfl,
    (outboundFallback_spec [] .dm_reply (by decide)).2.1 (by simp)⟩

/-! ## Event store (claims C1, C2, C10)

From src/scripts/src/core/event-bus.ts.  The `events` table is modelled as
a list of rows; SQLite's unique constraints (primary key `id`, partial
unique index on non-null `dedupe_key`) decide whether an `INSERT` throws.
The store is accessed single-process, so each operation is a pure function
from store state to store state. -/

/-- The `status` column of `events`. -/
inductive EventStatus where
  | pending
  | processing
  | retry
  | done
  | dead
deriving DecidableEq

/-- From src/scripts/src/core/bot-events.ts: `BotEventLane`. -/
inductive BotEventLane where
  | interactive
  | recovery
  | scheduled
  | system
deriving DecidableEq

/-- From src/scripts/src/core/event-bus.ts, `laneRank` (the `CASE lane ...
ELSE 3` expression of `claimNext`'s query has the same values). -/
def laneRank : BotEventLane → Nat
  | .interactive => 0
  | .recovery => 1
  | .scheduled => 2
  | .system => 3

/-- A row of the `events` table. -/
structure EventRow where
  id : String
  type : String
  lane : BotEventLane
  priority : Int
  payloadJson : String
  status : EventStatus
  attemptCount : Nat
  availableAt : Int
  lockedBy : Option String
  lockedAt : Option Int
  lastError : Option String
  dedupeKey : Option String
  createdAt : Int
  updatedAt : Int
deriving DecidableEq

/-- From src/scripts/src/core/event-bus.ts: `PublishEventInput` (optional
fields are `Option`; `priority` stands for the already-floored finite value,
with `none` for absent or non-finite). -/
structure PublishEventInput where
  type : String
  lane : Option BotEventLane
  payload : String
  priority : Option Int
  dedupeKey : Option String
  availableAt : Option Int

/-- Whether the `INSERT` of `publish` violates a unique constraint: a
duplicate primary key, or a duplicate non-null dedupe key. -/
def insertViolates (store : List EventRow) (id : String) (key : Option String) :
    Bool :=
  store.any (fun r => r.id = id) ||
    match key with
    | some k => store.any (fun r => r.dedupeKey = some k)
    | none => false

/-- The row `publish` inserts: `status 'pending'`, `attempt_count 0`, no
locks, no error, `created_at = updated_at = now`. -/
def newEventRow (input : PublishEventInput) (freshId : String) (now : Int) :
    EventRow where
  id := freshId
  type := input.type
  lane := input.lane.getD .interactive
  priority := input.priority.getD 0
  payloadJson := input.payload
  status := .pending
  attemptCount := 0
  availableAt := input.availableAt.getD now
  lockedBy := none
  lockedAt := none
  lastError := none
  dedupeKey := input.dedupeKey
  createdAt := now
  updatedAt := now

/-- From src/scripts/src/core/event-bus.ts, `SqliteEventBus.publish`: insert a
fresh `pending` row; if the insert throws and a dedupe key was given, return
the id of the existing row with that key (rethrow when none is found). -/
def publish (store : List EventRow) (freshId : String) (now : Int)
    (input : PublishEventInput) : Except String (String × List EventRow) :=
  if insertViolates store freshId input.dedupeKey then
    match input.dedupeKey with
    | none => .error "unique constraint violation"
    | some k =>
      match store.find? (fun r => r.dedupeKey = some k) with
      | some existing => .ok (existing.id, store)
      | none => .error "unique constraint violation"
  else
    .ok (freshId, store ++ [newEventRow input freshId now])

/-- Claim C1: publishing with a dedupe key that some stored row already
carries (whatever its status, including done or dead) returns that row's id
and leaves the store unchanged; and starting from a store without the key,
two publishes with the same key return the same id and add exactly one row. -/
theorem publish_dedupe_spec (store : List EventRow) (freshId : String)
    (now : Int) (input : PublishEventInput) (k : String)
    (hkey : input.dedupeKey = some k) :
    ((∃ r ∈ store, r.dedupeKey = some k) →
      ∃ r ∈ store, r.dedupeKey = some k ∧
        publish store freshId now input = .ok (r.id, store)) ∧
    (∀ (input2 : PublishEventInput) (fresh2 : String) (now2 : Int),
      input2.dedupeKey = some k →
      (∀ r ∈ store, r.dedupeKey ≠ some k) →
      (∀ r ∈ store, r.id ≠ freshId) →
      ∃ store1, publish store freshId now input = .ok (freshId, store1) ∧
        store1.length = store.length + 1 ∧
        publish store1 fresh2 now2 input2 = .ok (freshId, store1)) := by
  constructor
  · intro hex
    have hfind : (store.find? (fun r => r.dedupeKey = some k)).isSome := by
      rw [List.find?_isSome]
      obtain ⟨r, hr, hrk⟩ := hex
      exact ⟨r, hr, by simp [hrk]⟩
    obtain ⟨r0, hr0⟩ := Option.isSome_iff_exists.mp hfind
    have hmem : r0 ∈ store := List.mem_of_find?_eq_some hr0
    have hr0k : r0.dedupeKey = some k := by
      have := List.find?_some hr0
      simpa using this
    have hviol : insertViolates store freshId (some k) = true := by
      simp only [insertViolates, Bool.or_eq_true, List.any_eq_true]
      exact Or.inr ⟨r0, hmem, by simp [hr0k]⟩
    refine ⟨r0, hmem, hr0k, ?_⟩
    simp [publish, hkey, hviol, hr0]
  · intro input2 fresh2 now2 hkey2 hnok hnoid
    have hviol : insertViolates store freshId input.dedupeKey = false := by
      simp only [insertViolates, hkey, Bool.or_eq_false_iff]
      constructor
      · rw [List.any_eq_false]
        intro r hr
        simp [hnoid r hr]
      · rw [List.any_eq_false]
        intro r hr
        simp [hnok r hr]
    refine ⟨store ++ [newEventRow input freshId now], by simp [publish, hviol],
      by simp, ?_⟩
    have hviol2 : insertViolates (store ++ [newEventRow input freshId now])
        fresh2 input2.dedupeKey = true := by
      simp only [insertViolates, hkey2, Bool.or_eq_true, List.any_eq_true]
      refine Or.inr ⟨newEventRow input freshId now,
        List.mem_append_right _ (List.mem_singleton.mpr rfl), ?_⟩
      simp [newEventRow, hkey]
    have hfind2 : (store ++ [newEventRow input freshId now]).find?
        (fun r => r.dedupeKey = some k) = some (newEventRow input freshId now) := by
      rw [List.find?_append]
      have hnone : store.find? (fun r => r.dedupeKey = some k) = none := by
        rw [List.find?_eq_none]
        intro r hr
        simp [hnok r hr]
      rw [hnone]
      simp [newEventRow, hkey]
    rw [hkey2] at hviol2
    have hid : (newEventRow input freshId now).id = freshId := rfl
    simp [publish, hkey2, hviol2, hfind2, hid]

/-- A concrete stored row holding a dedupe key, for the C1 witness. -/
def sampleStoredRow : EventRow where
  id := "e1"
  type := "dm.incoming"
  lane := .interactive
  priority := 20
  payloadJson := "x"
  status := .done
  attemptCount := 1
  availableAt := 0
  lockedBy := none
  lockedAt := none
  lastError := none
  dedupeKey := some "outbound:42:reply"
  createdAt := 0
  updatedAt := 0

/-- A concrete publish input colliding with `sampleStoredRow`'s key, for the
C1 witness. -/
def samplePublishInput : PublishEventInput where
  type := "outbound.dm.request"
  lane := none
  payload := "y"
  priority := none
  dedupeKey := some "outbound:42:reply"
  availableAt := none

/-- Witness for claim C1: republishing into a one-row store holding the key
returns the stored id without growing the store. -/
theorem publish_dedupe_spec_witness :
    ∃ r ∈ [sampleStoredRow], r.dedupeKey = some "outbound:42:reply" ∧
      publish [sampleStoredRow] "e2" 5 samplePublishInput =
        .ok (r.id, [sampleStoredRow]) :=
  (publish_dedupe_spec [sampleStoredRow] "e2" 5 samplePublishInput
      "outbound:42:reply" rfl).1
    ⟨sampleStoredRow, List.mem_singleton.mpr rfl, rfl⟩

/-- The `WHERE status IN ('pending','retry') AND available_at <= now` filter
of `claimNext`'s query. -/
def isClaimable (now : Int) (r : EventRow) : Bool :=
  (decide (r.status = .pending) || decide (r.status = .retry)) &&
    decide (r.availableAt ≤ now)

/-- The `ORDER BY laneRank ASC, priority DESC, created_at ASC` comparison of
`claimNext`'s query: `a` strictly precedes `b`. -/
def claimBefore (a b : EventRow) : Bool :=
  decide (laneRank a.lane < laneRank b.lane ∨
    (laneRank a.lane = laneRank b.lane ∧
      (b.priority < a.priority ∨
        (a.priority = b.priority ∧ a.createdAt < b.createdAt))))

theorem claimBefore_irrefl (a : EventRow) : claimBefore a a = false := by
  simp only [claimBefore, decide_eq_false_iff_not]
  omega

theorem claimBefore_asymm (a b : EventRow) :
    claimBefore a b = true → claimBefore b a = false := by
  simp only [claimBefore, decide_eq_true_eq, decide_eq_false_iff_not]
  omega

theorem claimBefore_neg_trans (a b c : EventRow) :
    claimBefore b a = false → claimBefore c b = false →
    claimBefore c a = false := by
  simp only [claimBefore, decide_eq_false_iff_not]
  omega

/-- The first claimable row in the query's order: the `ORDER BY ... LIMIT`
plus the conditional `UPDATE` of `claimNext` (which always succeeds for the
first row inside the transaction) select a claimable row that no other
claimable row strictly precedes. -/
def selectClaim (now : Int) : List EventRow → Option EventRow
  | [] => none
  | r :: rs =>
    match selectClaim now rs with
    | none => if isClaimable now r then some r else none
    | some b =>
      if isClaimable now r then
        if claimBefore b r then some b else some r
      else some b

/-- The `UPDATE events SET status='processing', locked_by=?, locked_at=?,
updated_at=? WHERE id = ?` of `claimNext`. -/
def applyClaim (workerId : String) (now : Int) (claimedId : String)
    (store : List EventRow) : List EventRow :=
  store.map fun x =>
    if x.id = claimedId then
      { x with
          status := .processing
          lockedBy := some workerId
          lockedAt := some now
          updatedAt := now }
    else x

/-- From src/scripts/src/core/event-bus.ts, `SqliteEventBus.claimNext`:
select the first claimable row in the claim order and transition it to
`processing`, or return none and leave the store unchanged. -/
def claimNext (store : List EventRow) (workerId : String) (now : Int) :
    Option EventRow × List EventRow :=
  match selectClaim now store with
  | none => (none, store)
  | some r => (some r, applyClaim workerId now r.id store)

theorem selectClaim_none (now : Int) :
    ∀ l : List EventRow, selectClaim now l = none →
      ∀ r ∈ l, isClaimable now r = false := by
  intro l
  induction l with
  | nil => intro _ r hr; simp at hr
  | cons a rs ih =>
    intro h r hr
    simp only [selectClaim] at h
    split at h
    · rename_i heq
      split_ifs at h with ha
      rcases List.mem_cons.mp hr with rfl | hr2
      · exact eq_false_of_ne_true ha
      · exact ih heq r hr2
    · split_ifs at h

theorem selectClaim_some (now : Int) :
    ∀ (l : List EventRow) (r : EventRow), selectClaim now l = some r →
      r ∈ l ∧ isClaimable now r = true ∧
      ∀ x ∈ l, isClaimable now x = true → claimBefore x r = false := by
  intro l
  induction l with
  | nil => intro r h; simp [selectClaim] at h
  | cons a rs ih =>
    intro r h
    simp only [selectClaim] at h
    split at h
    · rename_i heq
      split_ifs at h with ha
      rcases Option.some.inj h with rfl
      refine ⟨List.mem_cons_self _ _, ha, ?_⟩
      intro x hx hxc
      rcases List.mem_cons.mp hx with rfl | hx2
      · exact claimBefore_irrefl _
      · exact absurd hxc (by simp [selectClaim_none now rs heq x hx2])
    · rename_i b heq
      obtain ⟨hbmem, hbc, hbmin⟩ := ih b heq
      split_ifs at h with ha hba
      · rcases Option.some.inj h with rfl
        refine ⟨List.mem_cons_of_mem _ hbmem, hbc, ?_⟩
        intro x hx hxc
        rcases List.mem_cons.mp hx with rfl | hx2
        · exact claimBefore_asymm _ _ hba
        · exact hbmin x hx2 hxc
      · rcases Option.some.inj h with rfl
        refine ⟨List.mem_cons_self _ _, ha, ?_⟩
        intro x hx hxc
        rcases List.mem_cons.mp hx with rfl | hx2
        · exact claimBefore_irrefl _
        · exact claimBefore_neg_trans _ b x (eq_false_of_ne_true hba)
            (hbmin x hx2 hxc)
      · rcases Option.some.inj h with rfl
        refine ⟨List.mem_cons_of_mem _ hbmem, hbc, ?_⟩
        intro x hx hxc
        rcases List.mem_cons.mp hx with rfl | hx2
        · exact absurd hxc (by simp [ha])
        · exact hbmin x hx2 hxc

/-- Claim C2: `claim_next` returns none exactly when no row is claimable
(status in {pending, retry} and available_at ≤ now), and otherwise returns a
claimable row that no other claimable row strictly precedes in the order
lane rank ascending (interactive 0, recovery 1, scheduled 2, system 3),
priority descending, created_at ascending; that row (identified by id) is
transitioned to processing with the worker's lock, and every other row is
unchanged. -/
theorem claimNext_spec (store : List EventRow) (workerId : String) (now : Int) :
    ((claimNext store workerId now).1 = none ↔
      ∀ r ∈ store, isClaimable now r = false) ∧
    ((claimNext store workerId now).1 = none →
      (claimNext store workerId now).2 = store) ∧
    (∀ r, (claimNext store workerId now).1 = some r →
      r ∈ store ∧ isClaimable now r = true ∧
      (∀ x ∈ store, isClaimable now x = true →
        laneRank r.lane < laneRank x.lane ∨
          (laneRank r.lane = laneRank x.lane ∧
            (x.priority < r.priority ∨
              (x.priority = r.priority ∧ r.createdAt ≤ x.createdAt)))) ∧
      List.Forall₂ (fun old new =>
        (old.id = r.id →
          new = { old with
              status := .processing
              lockedBy := some workerId
              lockedAt := some now
              updatedAt := now }) ∧
        (old.id ≠ r.id → new = old))
        store (claimNext store workerId now).2) := by
  refine ⟨⟨?_, ?_⟩, ?_, ?_⟩
  · intro h
    cases hsel : selectClaim now store with
    | none => exact selectClaim_none now store hsel
    | some b => simp [claimNext, hsel] at h
  · intro hall
    cases hsel : selectClaim now store with
    | none => simp [claimNext, hsel]
    | some b =>
      exfalso
      obtain ⟨hmem, hc, _⟩ := selectClaim_some now store b hsel
      have := hall b hmem
      rw [hc] at this
      simp at this
  · intro h
    cases hsel : selectClaim now store with
    | none => simp [claimNext, hsel]
    | some b => simp [claimNext, hsel] at h
  · intro r h
    cases hsel : selectClaim now store with
    | none => simp [claimNext, hsel] at h
    | some b =>
      have hrb : b = r := by simpa [claimNext, hsel] using h
      subst hrb
      obtain ⟨hmem, hc, hmin⟩ := selectClaim_some now store b hsel
      have hsnd : (claimNext store workerId now).2 =
          applyClaim workerId now b.id store := by
        simp [claimNext, hsel]
      refine ⟨hmem, hc, ?_, ?_⟩
      · intro x hx hxc
        have hb := hmin x hx hxc
        simp only [claimBefore, decide_eq_false_iff_not] at hb
        omega
      · rw [hsnd]
        simp only [applyClaim]
        have hall : ∀ l : List EventRow, List.Forall₂ (fun old new =>
            (old.id = b.id →
              new = { old with
                  status := .processing
                  lockedBy := some workerId
                  lockedAt := some now
                  updatedAt := now }) ∧
            (old.id ≠ b.id → new = old)) l
            (l.map fun x =>
              if x.id = b.id then
                { x with
                    status := .processing
                    lockedBy := some workerId
                    lockedAt := some now
                    updatedAt := now }
              else x) := by
          intro l
          induction l with
          | nil => exact List.Forall₂.nil
          | cons a rs ih =>
            refine List.Forall₂.cons ⟨?_, ?_⟩ ih
            · intro hid
              simp [hid]
            · intro hid
              simp [hid]
        exact hall store

/-- A claimable scheduled-lane row, for the C2 witness. -/
def sampleClaimA : EventRow where
  id := "a1"
  type := "scheduler.triggered"
  lane := .scheduled
  priority := 0
  payloadJson := "p"
  status := .pending
  attemptCount := 0
  availableAt := 0
  lockedBy := none
  lockedAt := none
  lastError := none
  dedupeKey := none
  createdAt := 1
  updatedAt := 1

/-- A claimable interactive-lane row that dominates `sampleClaimA`, for the
C2 witness. -/
def sampleClaimB : EventRow where
  id := "b1"
  type := "dm.incoming"
  lane := .interactive
  priority := 5
  payloadJson := "q"
  status := .retry
  attemptCount := 1
  availableAt := 3
  lockedBy := none
  lockedAt := none
  lastError := none
  dedupeKey := none
  createdAt := 2
  updatedAt := 2

/-- Witness for claim C2: an empty store claims nothing, and in a two-row
store the interactive-lane row is the claimed one. -/
theorem claimNext_spec_witness :
    (claimNext [] "w" 0).1 = none ∧
    sampleClaimB ∈ [sampleClaimA, sampleClaimB] :=
  ⟨(claimNext_spec [] "w" 0).1.mpr (by simp),
    ((claimNext_spec [sampleClaimA, sampleClaimB] "w" 10).2.2 sampleClaimB
      (by decide)).1⟩

/-- A row of the `dm_messages` table (flag columns are the stored 0/1
integers). -/
structure DmRow where
  messageId : String
  channelId : String
  authorId : String
  eyeApplied : Nat
  processingDone : Nat
  checkApplied : Nat
  terminalFailed : Nat
  lastError : Option String
  createdAt : Int
  updatedAt : Int
deriving DecidableEq

/-- From src/scripts/src/core/event-bus.ts, `SqliteEventBus.upsertDmMessage`:
`INSERT ... VALUES (?, ?, ?, 0, 0, 0, 0, NULL, ?, ?) ON CONFLICT(message_id)
DO UPDATE SET channel_id = excluded.channel_id, author_id =
excluded.author_id, updated_at = excluded.updated_at`. -/
def upsertDmMessage (rows : List DmRow) (messageId channelId authorId : String)
    (now : Int) : List DmRow :=
  if rows.any (fun r => r.messageId = messageId) then
    rows.map fun r =>
      if r.messageId = messageId then
        { r with
            channelId := channelId
            authorId := authorId
            updatedAt := now }
      else r
  else
    rows ++ [{
      messageId := messageId
      channelId := channelId
      authorId := authorId
      eyeApplied := 0
      processingDone := 0
      checkApplied := 0
      terminalFailed := 0
      lastError := none
      createdAt := now
      updatedAt := now }]

/-- Claim C10: when a row for the message id already exists, re-running the
upsert never resets progress: row for row, the flags `eye_applied`,
`processing_done`, `check_applied`, `terminal_failed` and the columns
`last_error` and `created_at` (and the message id itself) are unchanged, for
every prior row state and every argument values. -/
theorem upsertDm_frame_spec (rows : List DmRow)
    (messageId channelId authorId : String) (now : Int)
    (hexists : ∃ r ∈ rows, r.messageId = messageId) :
    List.Forall₂ (fun old new =>
      new.messageId = old.messageId ∧
      new.eyeApplied = old.eyeApplied ∧
      new.processingDone = old.processingDone ∧
      new.checkApplied = old.checkApplied ∧
      new.terminalFailed = old.terminalFailed ∧
      new.lastError = old.lastError ∧
      new.createdAt = old.createdAt)
      rows (upsertDmMessage rows messageId channelId authorId now) := by
  have hany : rows.any (fun r => r.messageId = messageId) = true := by
    rw [List.any_eq_true]
    obtain ⟨r, hr, hrk⟩ := hexists
    exact ⟨r, hr, by simp [hrk]⟩
  simp only [upsertDmMessage, if_pos hany]
  clear hany hexists
  induction rows with
  | nil => exact List.Forall₂.nil
  | cons a rs ih =>
    refine List.Forall₂.cons ?_ ih
    by_cases hid : a.messageId = messageId
    · simp [hid]
    · simp [hid]

/-- A DM-state row with progress flags set, for the C10 witness. -/
def sampleDmRow : DmRow where
  messageId := "42"
  channelId := "C"
  authorId := "111"
  eyeApplied := 1
  processingDone := 1
  checkApplied := 0
  terminalFailed := 0
  lastError := some "boom"
  createdAt := 7
  updatedAt := 8

/-- Witness for claim C10: upserting over an existing row with new channel and
author leaves its progress fields in place. -/
theorem upsertDm_frame_spec_witness :
    List.Forall₂ (fun old new =>
      new.messageId = old.messageId ∧
      new.eyeApplied = old.eyeApplied ∧
      new.processingDone = old.processingDone ∧
      new.checkApplied = old.checkApplied ∧
      new.terminalFailed = old.terminalFailed ∧
      new.lastError = old.lastError ∧
      new.createdAt = old.createdAt)
      [sampleDmRow] (upsertDmMessage [sampleDmRow] "42" "C2" "222" 99) :=
  upsertDm_frame_spec [sampleDmRow] "42" "C2" "222" 99
    ⟨sampleDmRow, List.mem_singleton.mpr rfl, rfl⟩

/-! ## DM delivery offsets (claim C4)

From src/scripts/src/core/event-bus.ts (`snowflakeToBigInt`,
`getDmOffset`, `updateDmOffset`).  `BigInt(value)` on a string follows
ECMA-262 StringToBigInt: trim, empty means 0, optional sign with decimal
digits, or an unsigned 0x/0o/0b radix literal; anything else throws
(modelled as `none`). -/

/-- The numeric value of one digit character in the given base. -/
def digitVal? (base : Nat) (c : Char) : Option Nat :=
  let v : Option Nat :=
    if '0' ≤ c ∧ c ≤ '9' then some (c.toNat - 48)
    else if 'a' ≤ c ∧ c ≤ 'f' then some (c.toNat - 87)
    else if 'A' ≤ c ∧ c ≤ 'F' then some (c.toNat - 55)
    else none
  match v with
  | some v => if v < base then some v else none
  | none => none

/-- Accumulating digit-string value in the given base. -/
def digitsValAux (base : Nat) (acc : Nat) : List Char → Option Nat
  | [] => some acc
  | c :: cs =>
    match digitVal? base c with
    | some v => digitsValAux base (acc * base + v) cs
    | none => none

/-- A non-empty digit string in the given base, or `none`. -/
def digitsVal? (base : Nat) (cs : List Char) : Option Nat :=
  if cs.isEmpty then none else digitsValAux base 0 cs

/-- From src/scripts/src/core/event-bus.ts, `snowflakeToBigInt`:
`BigInt(value)` returning `null` instead of throwing. -/
def snowflakeToBigInt (s : String) : Option Int :=
  let t := ((s.data.dropWhile fun c => isJsWsCode c.toNat).reverse.dropWhile
    fun c => isJsWsCode c.toNat).reverse
  match t with
  | [] => some 0
  | '0' :: c :: rest =>
    if c = 'x' ∨ c = 'X' then (digitsVal? 16 rest).map Int.ofNat
    else if c = 'o' ∨ c = 'O' then (digitsVal? 8 rest).map Int.ofNat
    else if c = 'b' ∨ c = 'B' then (digitsVal? 2 rest).map Int.ofNat
    else (digitsVal? 10 t).map Int.ofNat
  | '+' :: rest => (digitsVal? 10 rest).map Int.ofNat
  | '-' :: rest => (digitsVal? 10 rest).map fun n => -(n : Int)
  | _ => (digitsVal? 10 t).map Int.ofNat

/-- A row of the `dm_offsets` table. -/
structure DmOffsetRow where
  scope : String
  lastSeenMessageId : String
  updatedAt : Int
deriving DecidableEq

/-- From src/scripts/src/core/event-bus.ts, `SqliteEventBus.getDmOffset`. -/
def getDmOffset (offsets : List DmOffsetRow) (scope : String) : Option String :=
  (offsets.find? fun r => r.scope = scope).map (·.lastSeenMessageId)

/-- The `INSERT ... ON CONFLICT(scope) DO UPDATE` of `updateDmOffset`. -/
def upsertOffset (offsets : List DmOffsetRow) (scope messageId : String)
    (now : Int) : List DmOffsetRow :=
  if offsets.any (fun r => r.scope = scope) then
    offsets.map fun r =>
      if r.scope = scope then
        { r with lastSeenMessageId := messageId, updatedAt := now }
      else r
  else
    offsets ++ [{ scope := scope, lastSeenMessageId := messageId,
                  updatedAt := now }]

/-- From src/scripts/src/core/event-bus.ts, `SqliteEventBus.updateDmOffset`:
skip the write only when the stored offset is truthy (non-empty) and both
the stored and the new id parse as BigInt with new ≤ stored; otherwise
upsert the new id. -/
def updateDmOffset (offsets : List DmOffsetRow) (scope messageId : String)
    (now : Int) : List DmOffsetRow :=
  match getDmOffset offsets scope with
  | some current =>
    if current ≠ "" then
      match snowflakeToBigInt current, snowflakeToBigInt messageId with
      | some currentValue, some nextValue =>
        if nextValue ≤ currentValue then offsets
        else upsertOffset offsets scope messageId now
      | _, _ => upsertOffset offsets scope messageId now
    else upsertOffset offsets scope messageId now
  | none => upsertOffset offsets scope messageId now

theorem find_map_upsert (scope messageId : String) (now : Int) :
    ∀ l : List DmOffsetRow, l.any (fun r => r.scope = scope) = true →
      ((l.map fun r =>
          if r.scope = scope then
            { r with lastSeenMessageId := messageId, updatedAt := now }
          else r).find? fun r => r.scope = scope).map (·.lastSeenMessageId)
        = some messageId := by
  intro l
  induction l with
  | nil => intro h; simp at h
  | cons a rs ih =>
    intro h
    by_cases ha : a.scope = scope
    · simp [List.find?_cons, ha]
    · have h2 : rs.any (fun r => r.scope = scope) = true := by
        simp only [List.any_cons, Bool.or_eq_true, decide_eq_true_eq] at h
        rcases h with h | h
        · exact absurd h ha
        · exact h
      simpa [List.find?_cons, ha] using ih h2

theorem getDmOffset_upsert (offsets : List DmOffsetRow)
    (scope messageId : String) (now : Int) :
    getDmOffset (upsertOffset offsets scope messageId now) scope =
      some messageId := by
  simp only [upsertOffset]
  split_ifs with hany
  · exact find_map_upsert scope messageId now offsets hany
  · simp only [getDmOffset, List.find?_append]
    have hnone : offsets.find? (fun r => r.scope = scope) = none := by
      rw [List.find?_eq_none]
      intro r hr hcon
      exact hany (List.any_eq_true.mpr ⟨r, hr, hcon⟩)
    rw [hnone]
    simp

/-- Counterexample to claim C4 as stated: with stored offset "b" (not
numeric) and new id "a" (not numeric, lexicographically smaller), the code
performs the write anyway — there is no string-comparison fallback — so the
stored offset regresses under the claimed comparison. -/
theorem updateDmOffset_counterexample :
    snowflakeToBigInt "a" = none ∧ snowflakeToBigInt "b" = none ∧
    List.Lex (· < ·) "a".data "b".data ∧
    getDmOffset
      (updateDmOffset
        [{ scope := "s", lastSeenMessageId := "b", updatedAt := 0 }]
        "s" "a" 1) "s" = some "a" := by
  refine ⟨by decide, by decide, List.Lex.rel (by decide), by decide⟩

/-- Claim C4 as amended: `update_offset` skips the write exactly when the
stored offset is a non-empty string and both the stored and new ids parse as
integers (JS `BigInt` semantics) with new ≤ stored; in every other case —
including when either id is not numeric — it writes unconditionally (no
lexicographic fallback exists).  Consequently, when the stored offset is
non-empty and both ids are numeric, the stored value never decreases
numerically. -/
theorem updateDmOffset_spec_amended (offsets : List DmOffsetRow)
    (scope cur messageId : String) (now : Int) :
    (getDmOffset offsets scope = some cur → cur ≠ "" →
      ∀ cv nv, snowflakeToBigInt cur = some cv →
        snowflakeToBigInt messageId = some nv → nv ≤ cv →
        updateDmOffset offsets scope messageId now = offsets) ∧
    (getDmOffset offsets scope = some cur →
      (snowflakeToBigInt cur = none ∨ snowflakeToBigInt messageId = none) →
      getDmOffset (updateDmOffset offsets scope messageId now) scope =
        some messageId) ∧
    (getDmOffset offsets scope = none →
      getDmOffset (updateDmOffset offsets scope messageId now) scope =
        some messageId) ∧
    (getDmOffset offsets scope = some cur → cur ≠ "" →
      ∀ cv nv, snowflakeToBigInt cur = some cv →
        snowflakeToBigInt messageId = some nv →
        ∃ res resv,
          getDmOffset (updateDmOffset offsets scope messageId now) scope =
            some res ∧ snowflakeToBigInt res = some resv ∧ cv ≤ resv) := by
  refine ⟨?_, ?_, ?_, ?_⟩
  · intro h hne cv nv hcv hnv hle
    simp only [updateDmOffset, h, hcv, hnv]
    rw [if_pos hne]
    simp [hle]
  · intro h hnone
    simp only [updateDmOffset, h]
    by_cases hne : cur = ""
    · simp [hne, getDmOffset_upsert]
    · rw [if_pos hne]
      rcases hnone with hnone | hnone <;>
        cases h1 : snowflakeToBigInt cur <;>
        cases h2 : snowflakeToBigInt messageId <;>
        simp_all [getDmOffset_upsert]
  · intro h
    simp only [updateDmOffset, h]
    exact getDmOffset_upsert offsets scope messageId now
  · intro h hne cv nv hcv hnv
    by_cases hle : nv ≤ cv
    · refine ⟨cur, cv, ?_, hcv, le_refl cv⟩
      have hskip : updateDmOffset offsets scope messageId now = offsets := by
        simp only [updateDmOffset, h, hcv, hnv]
        rw [if_pos hne]
        simp [hle]
      rw [hskip, h]
    · refine ⟨messageId, nv, ?_, hnv, by omega⟩
      have hwrite : updateDmOffset offsets scope messageId now =
          upsertOffset offsets scope messageId now := by
        simp only [updateDmOffset, h, hcv, hnv]
        rw [if_pos hne]
        simp [hle]
      rw [hwrite]
      exact getDmOffset_upsert offsets scope messageId now

/-- Witness for the amended claim C4: with stored numeric offset "5", the
smaller numeric id "3" is not written. -/
theorem updateDmOffset_spec_amended_witness :
    updateDmOffset
      [{ scope := "s", lastSeenMessageId := "5", updatedAt := 0 }] "s" "3" 1 =
      [{ scope := "s", lastSeenMessageId := "5", updatedAt := 0 }] :=
  (updateDmOffset_spec_amended
      [{ scope := "s", lastSeenMessageId := "5", updatedAt := 0 }]
      "s" "5" "3" 1).1 (by decide) (by decide) 5 3 (by decide) (by decide)
    (by decide)

/-! ## Sandbox lifecycle (claim C7)

From src/scripts/src/adapters/claude-adapter.ts (`ensureClaudeSandbox`,
`findSandboxForWorkspace`, `removeSandbox`).  One call is modelled against
a scripted list of creation outcomes (each `docker sandbox run` consumes
the head): a valid new id, a credentials-conflict error (either the
non-zero-exit or the unparseable-output variant), or any other failure.
The environment's sandboxes are (id, workspace) pairs; the result is the
number of creation invocations, the ids removed, and the returned id or
error. -/

/-- One outcome of invoking the sandbox creation tool. -/
inductive SandboxRunOutcome where
  | success (id : String)
  | conflict
  | failure (msg : String)
deriving DecidableEq

/-- From src/scripts/src/adapters/claude-adapter.ts,
`findSandboxForWorkspace`: the first listed sandbox whose inspected
workspace matches. -/
def findSandboxForWorkspace (workspace : String)
    (sandboxes : List (String × String)) : Option String :=
  (sandboxes.find? fun p => p.2 = workspace).map (·.1)

/-- `removeSandbox` applied to the conflicting sandbox, when one is found. -/
def removeConflicting (workspace : String)
    (sandboxes : List (String × String)) : List (String × String) :=
  match findSandboxForWorkspace workspace sandboxes with
  | some rid => sandboxes.filter fun p => p.1 ≠ rid
  | none => sandboxes

/-- From src/scripts/src/adapters/claude-adapter.ts, `ensureClaudeSandbox`:
memory cache, then disk cache, then creation; on a credentials conflict,
remove the conflicting sandbox and recurse (`return ensureClaudeSandbox(
config)`), consuming the next scripted outcome.  Returns (number of
creation invocations, removed sandbox ids, result); an exhausted outcome
script is an error that consumed no creation call. -/
def ensureSandboxLoop (workspace : String) (sandboxes : List (String × String)) :
    Option String → Option String → List SandboxRunOutcome →
      Nat × List String × Except String String
  | some id, _, _ => (0, [], .ok id)
  | none, some id, _ => (0, [], .ok id)
  | none, none, [] => (0, [], .error "out of modelled outcomes")
  | none, none, .success id :: _ => (1, [], .ok id)
  | none, none, .failure msg :: _ => (1, [], .error msg)
  | none, none, .conflict :: rest =>
    let result :=
      ensureSandboxLoop workspace (removeConflicting workspace sandboxes)
        none none rest
    (result.1 + 1,
      (findSandboxForWorkspace workspace sandboxes).toList ++ result.2.1,
      result.2.2)

/-- Counterexample to claim C7 as stated: with no cached id and the outcome
sequence conflict, conflict, success, a single `ensure_sandbox` call invokes
the creation tool three times — the conflict recursion is unbounded, not a
single retry. -/
theorem ensureSandbox_counterexample :
    (ensureSandboxLoop "w" [] none none
      [.conflict, .conflict, .success "abc123abc123"]).1 = 3 := by
  decide

/-- Claim C7 as amended: a cached id short-circuits creation entirely; on a
credentials conflict the call removes the sandbox whose workspace matches
(when one is listed) and re-enters itself, so k consecutive conflict
outcomes followed by a non-conflict outcome invoke the creation tool exactly
k + 1 times.  Creation is invoked at most twice only when at most one
conflict occurs, not for every outcome sequence. -/
theorem ensureSandbox_spec_amended :
    (∀ (workspace id : String) (sandboxes : List (String × String))
        (disk : Option String) (outcomes : List SandboxRunOutcome),
      ensureSandboxLoop workspace sandboxes (some id) disk outcomes =
        (0, [], .ok id)) ∧
    (∀ (workspace id : String) (sandboxes : List (String × String))
        (rest : List SandboxRunOutcome),
      ensureSandboxLoop workspace sandboxes none none
          (.conflict :: .success id :: rest) =
        (2, (findSandboxForWorkspace workspace sandboxes).toList, .ok id)) ∧
    (∀ (workspace : String) (pre : List SandboxRunOutcome)
        (o : SandboxRunOutcome) (rest : List SandboxRunOutcome)
        (sandboxes : List (String × String)),
      (∀ x ∈ pre, x = .conflict) → o ≠ .conflict →
      (ensureSandboxLoop workspace sandboxes none none
          (pre ++ o :: rest)).1 = pre.length + 1) := by
  refine ⟨?_, ?_, ?_⟩
  · intro workspace id sandboxes disk outcomes
    simp [ensureSandboxLoop]
  · intro workspace id sandboxes rest
    simp [ensureSandboxLoop]
  · intro workspace pre
    induction pre with
    | nil =>
      intro o rest sandboxes _ ho
      cases o with
      | success id => simp [ensureSandboxLoop]
      | conflict => exact absurd rfl ho
      | failure msg => simp [ensureSandboxLoop]
    | cons p ps ih =>
      intro o rest sandboxes hpre ho
      have hp : p = .conflict := hpre p (List.mem_cons_self _ _)
      subst hp
      have hps : ∀ x ∈ ps, x = SandboxRunOutcome.conflict :=
        fun x hx => hpre x (List.mem_cons_of_mem _ hx)
      have h2 := ih o rest (removeConflicting workspace sandboxes) hps ho
      simp only [List.cons_append, ensureSandboxLoop, List.length_cons,
        List.append_eq] at h2 ⊢
      omega

/-- Witness for the amended claim C7: one conflict then success creates
twice, removing the listed conflicting sandbox. -/
theorem ensureSandbox_spec_amended_witness :
    ensureSandboxLoop "/proj" [("deadbeef", "/proj")] none none
        [.conflict, .success "abc123abc123"] =
      (2, ["deadbeef"], .ok "abc123abc123") ∧
    (ensureSandboxLoop "/proj" [] none none
        [.conflict, .success "abc123abc123"]).1 =
      [SandboxRunOutcome.conflict].length + 1 :=
  ⟨(ensureSandbox_spec_amended).2.1 "/proj" "abc123abc123"
      [("deadbeef", "/proj")] [],
    (ensureSandbox_spec_amended).2.2 "/proj" [.conflict]
      (.success "abc123abc123") [] []
      (fun x hx => by simpa using hx) (by simp)⟩
